import Mathlib

/-! Shallow embedding of the core pipeline of the spotify-to-image repository:
the lyric analysis store (src/song_analysis_storage.py), the image searcher
(src/image_searcher.py), and the streaming LLM analysis parser with retry
logic (src/llm_analysis.py).  Python dictionaries are modelled as association
lists with latest-insertion-wins lookup, numpy float arrays as lists of
rationals, and the streamed LLM reply as a list of text fragments over
`List Char`. -/

namespace SpotifyToImage

/-! Lyric normalization, from `SongAnalysisStorage._normalize_lyric`
(src/song_analysis_storage.py lines 22-34). -/

/-- Python whitespace characters recognised by `str.split` / `str.strip`
(restricted to ASCII, which is all the repository ever feeds in):
space, tab, newline, vertical tab, form feed, carriage return. -/
def isPyWs (c : Char) : Bool :=
  c == ' ' || c == '\t' || c == '\n' || c.toNat == 11 || c.toNat == 12 || c == '\r'

/-- Membership in Python `string.punctuation`, which is exactly the ASCII
ranges 33-47, 58-64, 91-96 and 123-126. -/
def isPyPunct (c : Char) : Bool :=
  (33 ≤ c.toNat && c.toNat ≤ 47) || (58 ≤ c.toNat && c.toNat ≤ 64) ||
  (91 ≤ c.toNat && c.toNat ≤ 96) || (123 ≤ c.toNat && c.toNat ≤ 126)

/-- The translation table of `_normalize_lyric` deletes every punctuation
character except the apostrophe (code point 39); `keepChar` is true for the
characters that survive `lyric_text.translate(translator)`. -/
def keepChar (c : Char) : Bool :=
  !(isPyPunct c && c.toNat != 39)

/-- Python `s.split()`: split a character list into the maximal runs of
non-whitespace characters, dropping all whitespace.  The first argument
accumulates the current word in reverse. -/
def wordsAux : List Char → List Char → List (List Char)
  | acc, [] => if acc.isEmpty then [] else [acc.reverse]
  | acc, c :: cs =>
    if isPyWs c then
      if acc.isEmpty then wordsAux [] cs else acc.reverse :: wordsAux [] cs
    else wordsAux (c :: acc) cs

/-- `SongAnalysisStorage._normalize_lyric`: delete punctuation except
apostrophes, lowercase (ASCII case map, matching Python on the ASCII inputs
used here), strip, and collapse internal whitespace runs to single spaces
via `' '.join(normalized.split())`.  The Python early return on the empty
string yields the empty string, as does this general path. -/
def normalize_lyric (lyric_text : String) : String :=
  let filtered := lyric_text.toList.filter keepChar
  let lowered := filtered.map Char.toLower
  String.intercalate " " ((wordsAux [] lowered).map String.mk)

/-! The analysis store, from `SongAnalysisStorage`
(src/song_analysis_storage.py lines 9-132).  A Python dict is modelled as an
association list where insertion prepends and lookup takes the first match,
so a later insertion of the same key shadows the earlier one, exactly like
`d[k] = v` followed by `d.get(k)`. -/

/-- Python `d.get(k)`: first binding of `k` in the association list. -/
def dictGet {β : Type} (d : List (String × β)) (k : String) : Option β :=
  (d.find? (fun p => p.1 == k)).map (fun p => p.2)

/-- Python `d[k] = v`: prepend the binding, shadowing any older one. -/
def dictSet {β : Type} (d : List (String × β)) (k : String) (v : β) :
    List (String × β) :=
  (k, v) :: d

/-- State of a `SongAnalysisStorage` instance: `song_data` maps a song title
to the per-line table mapping a normalized lyric to its visual sentence, and
`current_song_title` is the current-song pointer.  The `threading.Lock` only
serialises the operations modelled here, so it has no separate state. -/
structure SongAnalysisStorage where
  song_data : List (String × List (String × String))
  current_song_title : Option String
deriving DecidableEq

/-- `SongAnalysisStorage.start_new_song` (lines 36-48): no-op on an empty
title, otherwise set the current-song pointer and install a fresh empty
table for that title. -/
def start_new_song (st : SongAnalysisStorage) (song_title : String) :
    SongAnalysisStorage :=
  if song_title = "" then st
  else { current_song_title := some song_title,
         song_data := dictSet st.song_data song_title [] }

/-- `SongAnalysisStorage.add_analysis_line` (lines 50-82).  The Python
argument is a dict with keys `lyric` and `sentence`; a missing key gives
`None`, which together with the empty string is falsy, so both cases are
modelled by the empty string.  Ignores the call when either field or the
normalized lyric is empty or no song is current; otherwise upserts into the
current song table (re-creating it if missing, mirroring the defensive
`if ... not in self.song_data` branch). -/
def add_analysis_line (st : SongAnalysisStorage)
    (original_lyric concrete_sentence : String) : SongAnalysisStorage :=
  if original_lyric = "" ∨ concrete_sentence = "" then st
  else
    let normalized_lyric := normalize_lyric original_lyric
    if normalized_lyric = "" then st
    else
      match st.current_song_title with
      | none => st
      | some t =>
        let d := (dictGet st.song_data t).getD []
        { st with song_data := dictSet st.song_data t (dictSet d normalized_lyric concrete_sentence) }

/-- `SongAnalysisStorage.find_analysis_by_lyric` (lines 84-116): `None` on an
empty title, lyric, or normalized lyric; otherwise look the normalized lyric
up in the table for `song_title`.  Python tests the fetched dict for
truthiness, so a missing table and an empty table both yield `None`; here a
missing table yields `none` and lookup in an empty list also yields `none`. -/
def find_analysis_by_lyric (st : SongAnalysisStorage)
    (song_title current_lyric_text : String) : Option String :=
  if song_title = "" ∨ current_lyric_text = "" then none
  else
    let normalized_lookup := normalize_lyric current_lyric_text
    if normalized_lookup = "" then none
    else
      match dictGet st.song_data song_title with
      | none => none
      | some d => dictGet d normalized_lookup

/-! The image searcher, from `ImageSearcher` (src/image_searcher.py).
Vectors are lists of rationals.  `search` (lines 71-126) receives the
already L2-normalized stored embeddings and the normalized query, exactly
the arrays that reach the `np.dot` on line 105 (the normalizations
themselves are float-sqrt scalings that do not change which claims below
hold, and every claim quantifies over arbitrary vector values). -/

/-- Dot product, the `np.dot` of a query row with one stored row. -/
def dot (v w : List ℚ) : ℚ :=
  (List.zipWith (fun a b => a * b) v w).sum

/-- The `similarities` array of line 105: one dot product per stored row. -/
def similarities (normalized_image_embeddings : List (List ℚ))
    (text_embedding : List ℚ) : List ℚ :=
  normalized_image_embeddings.map (fun v => dot text_embedding v)

/-- `similarities[i]` (out-of-range reads never happen on the indices
produced below; the default is irrelevant). -/
def simAt (sims : List ℚ) (i : Nat) : ℚ :=
  sims.getD i 0

/-- One step of a stable ascending insertion sort of indices by score: the
new index `i` is placed after every already-present index whose score is
not greater, so among equal scores the earlier-inserted index stays first. -/
def insOrd (sims : List ℚ) (i : Nat) : List Nat → List Nat
  | [] => [i]
  | j :: js => if simAt sims i < simAt sims j then i :: j :: js else j :: insOrd sims i js

/-- `np.argsort(similarities)`: the indices `0..n-1` sorted ascending by
score, modelled as a stable ascending insertion sort (indices inserted in
increasing order, so equal scores keep ascending index order).  Caveat on
faithfulness of the tie order: the default numpy kind is introsort, which
is documented as NOT stable; it degenerates to an insertion sort only below
a small cutoff, so this model reproduces the tie behaviour of the code
exactly on such small arrays (including every concrete index in the
theorems below) and fixes one arbitrary-but-possible tie order beyond that.
No theorem below asserts a tie order for larger arrays, and the length and
descending-score conclusions about `search` are independent of how the sort
orders equal scores. -/
def argsortAsc (sims : List ℚ) : List Nat :=
  (List.range sims.length).foldl (fun acc i => insOrd sims i acc) []

/-- Python `l[-k:]`: the last `k` elements, except that `-0` is `0`, so
`k = 0` yields the whole list. -/
def lastSlice {α : Type} (l : List α) (k : Nat) : List α :=
  if k = 0 then l else l.drop (l.length - k)

/-- `ImageSearcher.search` (lines 71-126): ascending argsort of the
similarities, keep the last `top_k` indices, reverse to descending, and
collect `(path, score)` pairs, skipping any index out of bounds for the
path list (the defensive `0 <= i < len(self.image_paths)` check). -/
def search (image_paths : List String)
    (normalized_image_embeddings : List (List ℚ))
    (text_embedding : List ℚ) (top_k : Nat) : List (String × ℚ) :=
  (lastSlice (argsortAsc (similarities normalized_image_embeddings text_embedding)) top_k).reverse.filterMap
    (fun i =>
      if i < image_paths.length then
        some (image_paths.getD i "",
          simAt (similarities normalized_image_embeddings text_embedding) i)
      else none)

/-- The two artifacts held by an `ImageSearcher` after `_load_data`. -/
structure ImageSearcherData where
  image_embeddings : List (List ℚ)
  image_paths : List String
deriving DecidableEq

/-- `ImageSearcher._load_data` (lines 34-57), with both files present and
readable (the `FileNotFoundError` / unpickling paths concern the filesystem,
not the length contract).  The returned Bool records whether the mismatch
warning `"Mismatch between number of embeddings and paths!"` was logged.
The code stores both artifacts unchanged in every case: it neither raises
on a length mismatch nor truncates either list. -/
def load_data (embeddings : List (List ℚ)) (paths : List String) :
    ImageSearcherData × Bool :=
  (⟨embeddings, paths⟩, paths.length != embeddings.length)

/-! The streaming analysis parser, from `LLMAnalysis.parse_section` and
`LLMAnalysis._process_stream` (src/llm_analysis.py lines 150-266).  Text is
modelled as `List Char`; a streamed reply is a list of fragment texts. -/

/-- The record delimiter `<<END>>`. -/
def sentinel : List Char := ['<', '<', 'E', 'N', 'D', '>', '>']

/-- `text.startswith(pat)` on character lists: `leadsWith pat l` is true when
`pat` is an initial segment of `l`. -/
def leadsWith : List Char → List Char → Bool
  | [], _ => true
  | _ :: _, [] => false
  | p :: ps, c :: cs => p == c && leadsWith ps cs

/-- Python `pat in text`: some suffix of `text` starts with `pat`. -/
def containsSub (pat : List Char) : List Char → Bool
  | [] => leadsWith pat []
  | c :: cs => leadsWith pat (c :: cs) || containsSub pat cs

/-- Python `text.strip()` (ASCII whitespace): drop whitespace from both ends. -/
def pyStrip (l : List Char) : List Char :=
  ((l.dropWhile isPyWs).reverse.dropWhile isPyWs).reverse

/-- Python `text.split('\n')`: split at every newline, keeping empty pieces. -/
def splitNl : List Char → List (List Char)
  | [] => [[]]
  | c :: cs =>
    if c == '\n' then [] :: splitNl cs
    else
      match splitNl cs with
      | g :: gs => (c :: g) :: gs
      | [] => [[c]]

/-- The `LYRIC:` line tag. -/
def lyricTag : List Char := ['L', 'Y', 'R', 'I', 'C', ':']

/-- The `SENTENCE:` line tag. -/
def sentenceTag : List Char := ['S', 'E', 'N', 'T', 'E', 'N', 'C', 'E', ':']

/-- One parsed analysis record: the original lyric line and its visual
sentence. -/
structure Record where
  lyric : List Char
  sentence : List Char
deriving DecidableEq

/-- `LLMAnalysis.parse_section` (lines 150-170): strip the candidate; on the
empty result return `None`; otherwise scan its lines, a stripped line
starting with `LYRIC:` sets the lyric to the stripped remainder and
`SENTENCE:` likewise (the `elif` gives `LYRIC:` priority, and the last
occurrence of each tag wins); succeed only when both fields are truthy,
i.e. set and non-empty. -/
def parse_section (section_text : List Char) : Option Record :=
  let sec := pyStrip section_text
  if sec.isEmpty then none
  else
    let r := (splitNl sec).foldl
      (fun (acc : Option (List Char) × Option (List Char)) raw =>
        let line := pyStrip raw
        if leadsWith lyricTag line then (some (pyStrip (line.drop lyricTag.length)), acc.2)
        else if leadsWith sentenceTag line then (acc.1, some (pyStrip (line.drop sentenceTag.length)))
        else acc)
      (none, none)
    match r with
    | (some l, some s) => if l.isEmpty || s.isEmpty then none else some ⟨l, s⟩
    | _ => none

/-- The body of the `while "<<END>>" in buffer` loop performs one
`buffer.split("<<END>>", 1)`: `splitAtSentinel l` is `some (before, after)`
for the first occurrence of the sentinel in `l`, and `none` when the
sentinel does not occur. -/
def splitAtSentinel : List Char → Option (List Char × List Char)
  | [] => none
  | c :: cs =>
    if leadsWith sentinel (c :: cs) then some ([], (c :: cs).drop sentinel.length)
    else
      match splitAtSentinel cs with
      | some (pre, post) => some (c :: pre, post)
      | none => none

/-- The whole `while` loop of `_process_stream` on one buffer: repeatedly
split off the text before the first sentinel as a candidate section until no
sentinel remains, returning the candidate sections in order and the final
sentinel-free buffer.  Structured with explicit fuel so that it computes by
kernel reduction; each split strictly shortens the buffer, so a fuel equal
to the buffer length always suffices (see `extractAll`). -/
def extractAllF : Nat → List Char → List (List Char) × List Char
  | 0, l => ([], l)
  | fuel + 1, l =>
    match splitAtSentinel l with
    | some (pre, post) =>
      ((pre :: (extractAllF fuel post).1), (extractAllF fuel post).2)
    | none => ([], l)

/-- The sentinel-splitting loop run to completion on a buffer. -/
def extractAll (l : List Char) : List (List Char) × List Char :=
  extractAllF l.length l

/-- Handling of one candidate section inside the loop: `section =
parts[0].strip()`, skip it when empty, otherwise `parse_section` decides
whether a record is emitted. -/
def emitSection (sec : List Char) : Option Record :=
  if (pyStrip sec).isEmpty then none else parse_section (pyStrip sec)

/-- Processing of one stream chunk in `_process_stream` (lines 199-243): the
chunk text is appended to the buffer, then the `while` loop drains every
complete section, emitting the records of the sections that parse.  The
state is the records emitted so far plus the pending buffer. -/
def streamState (st : List Record × List Char) (chunk : List Char) :
    List Record × List Char :=
  (st.1 ++ (extractAll (st.2 ++ chunk)).1.filterMap emitSection,
   (extractAll (st.2 ++ chunk)).2)

/-- End-of-stream handling (lines 245-263): strip the leftover buffer and,
only if it still textually contains `LYRIC:` or `SENTENCE:`, give it to
`parse_section` as one last candidate. -/
def finalEmit (buffer : List Char) : Option Record :=
  let remaining := pyStrip buffer
  if remaining.isEmpty then none
  else if containsSub lyricTag remaining || containsSub sentenceTag remaining then
    parse_section remaining
  else none

/-- Concatenation of all fragments of a stream. -/
def concatChunks : List (List Char) → List Char
  | [] => []
  | c :: cs => c ++ concatChunks cs

/-- `LLMAnalysis._process_stream` (lines 182-266) restricted to its
observable output: the records passed to the storage callback, in order.
Each chunk is folded through `streamState` starting from an empty buffer,
and the leftover buffer contributes at most one final record. -/
def process_stream (chunks : List (List Char)) : List Record :=
  let st := chunks.foldl streamState ([], [])
  st.1 ++ (finalEmit st.2).toList

/-- The two-record stream text used by the spec to exercise split
invariance. -/
def streamInput : List Char :=
  ("LYRIC: a\nSENTENCE: b\n<<END>>LYRIC: c\nSENTENCE: d\n<<END>>").toList

/-- The stream text whose first candidate lacks a SENTENCE line. -/
def streamInputMissing : List Char :=
  ("LYRIC: x\n<<END>>LYRIC: y\nSENTENCE: z\n<<END>>").toList

/-! The retry loop of `LLMAnalysis._perform_analysis_thread`
(src/llm_analysis.py lines 269-331). -/

/-- Classification of one `generate_content` + stream-processing attempt:
it either succeeds, raises one of the three retriable `google.api_core`
exceptions, raises another `GoogleAPIError`, or raises any other
exception. -/
inductive AttemptOutcome where
  | success
  | serviceUnavailable
  | resourceExhausted
  | deadlineExceeded
  | googleAPIError
  | otherError
deriving DecidableEq

/-- The outcomes caught by the retriable `except` clause. -/
def isTransient : AttemptOutcome → Bool
  | .serviceUnavailable => true
  | .resourceExhausted => true
  | .deadlineExceeded => true
  | _ => false

/-- `MAX_RETRIES` (line 17). -/
def MAX_RETRIES : Nat := 3

/-- `INITIAL_RETRY_DELAY_SECONDS` (line 18); delays are exact rationals. -/
def INITIAL_RETRY_DELAY_SECONDS : ℚ := 2

/-- `MAX_RETRY_DELAY_SECONDS` (line 19). -/
def MAX_RETRY_DELAY_SECONDS : ℚ := 16

/-- The `for attempt in range(MAX_RETRIES + 1)` loop (lines 280-318),
parametrised by the outcome of each attempt and by the jitter drawn on each
retry (`os.urandom(1)[0] / 255.0`, an arbitrary rational here).  The fuel is
the number of loop iterations still available (`MAX_RETRIES + 1 - attempt`).
An attempt whose outcome is transient while `attempt < MAX_RETRIES` sleeps
for `current_delay`, doubles it, adds the jitter, caps it at
`MAX_RETRY_DELAY_SECONDS`, and re-attempts; every other outcome (success,
non-retriable error, or a transient failure on the last attempt) ends the
loop after that attempt.  Returns the number of attempts performed and the
list of sleep delays in order. -/
def perform_analysis_attempts (outcome : Nat → AttemptOutcome) (jitter : Nat → ℚ) :
    Nat → Nat → ℚ → Nat × List ℚ
  | 0, _, _ => (0, [])
  | fuel + 1, attempt, current_delay =>
    if isTransient (outcome attempt) ∧ attempt < MAX_RETRIES then
      let next := perform_analysis_attempts outcome jitter fuel (attempt + 1)
        (min (current_delay * 2 + jitter attempt) MAX_RETRY_DELAY_SECONDS)
      (next.1 + 1, current_delay :: next.2)
    else (1, [])

/-- The whole retry loop of `_perform_analysis_thread`: start at attempt 0
with the initial delay. -/
def perform_analysis_thread (outcome : Nat → AttemptOutcome) (jitter : Nat → ℚ) :
    Nat × List ℚ :=
  perform_analysis_attempts outcome jitter (MAX_RETRIES + 1) 0 INITIAL_RETRY_DELAY_SECONDS

/-! Helper lemmas about the association-list dictionary model. -/

theorem dictGet_set_self {β : Type} (d : List (String × β)) (k : String) (v : β) :
    dictGet (dictSet d k v) k = some v := by
  simp [dictGet, dictSet, List.find?]

theorem dictGet_set_ne {β : Type} (d : List (String × β)) (k k' : String) (v : β)
    (h : k ≠ k') : dictGet (dictSet d k v) k' = dictGet d k' := by
  simp only [dictGet, dictSet, List.find?]
  have : (k == k') = false := by simp [h]
  simp [this]

theorem normalize_lyric_empty : normalize_lyric "" = "" := rfl

/-- Claim C1, counterexample: with song "a" current, store the line "x" with
sentence "y", then start song "b"; looking "x" up under song "a" still
returns "y", not absent — `start_new_song "b"` replaces only the table of
"b", it does not clear the table that "a" populated. -/
theorem c1_counterexample :
    find_analysis_by_lyric
      (start_new_song (add_analysis_line (start_new_song ⟨[], none⟩ "a") "x" "y") "b")
      "a" "x" = some "y" := by decide

/-- Claim C1 (amended): for distinct non-empty song ids A and B, starting
from any store state (in particular one whose table for A is populated),
`start_new_song A` followed by `start_new_song B` leaves every lookup under
A absent: the second `start_new_song A` call replaced the old table of A
with an empty one, and starting B does not touch it. -/
theorem c1_replacement (st : SongAnalysisStorage) (A B L : String)
    (hA : A ≠ "") (hB : B ≠ "") (hAB : A ≠ B) :
    find_analysis_by_lyric (start_new_song (start_new_song st A) B) A L = none := by
  simp only [start_new_song, if_neg hA, if_neg hB]
  unfold find_analysis_by_lyric
  by_cases hL : L = ""
  · simp [hL]
  · simp only [hA, hL, or_self, if_neg, false_or, if_false]
    by_cases hn : normalize_lyric L = ""
    · simp [hn]
    · simp only [hn, if_false]
      rw [dictGet_set_ne _ _ _ _ (Ne.symm hAB), dictGet_set_self]
      simp [dictGet]

/-- Claim C1 witness: the amended statement at song ids "a", "b" and line
"x". -/
theorem c1_witness :
    find_analysis_by_lyric
      (start_new_song (start_new_song
        (add_analysis_line (start_new_song ⟨[], none⟩ "a") "x" "y") "a") "b")
      "a" "x" = none :=
  c1_replacement _ "a" "b" "x" (by decide) (by decide) (by decide)

/-- Claim C2, counterexample: the lyric "!" and sentence "x" are both
non-empty, but "!" normalizes to the empty string, so `add_analysis_line`
ignores it and the round-trip lookup returns `none`, not the stored
sentence. -/
theorem c2_counterexample :
    find_analysis_by_lyric
      (add_analysis_line (start_new_song ⟨[], none⟩ "a") "!" "x") "a" "!" ≠ some "x" := by
  decide

/-- Claim C2 (amended): with a non-empty song current, for every sentence S
and every lyric L whose normalization is non-empty (rather than every
non-empty L: a lyric made of punctuation normalizes to the empty string and
is discarded), `add_analysis_line` then lookup under the current song
returns S. -/
theorem c2_round_trip (st : SongAnalysisStorage) (t L S : String)
    (hcur : st.current_song_title = some t) (ht : t ≠ "")
    (hn : normalize_lyric L ≠ "") (hS : S ≠ "") :
    find_analysis_by_lyric (add_analysis_line st L S) t L = some S := by
  have hL : L ≠ "" := by
    intro h
    exact hn (by rw [h, normalize_lyric_empty])
  unfold add_analysis_line
  simp only [hL, hS, or_self, if_false, false_or, if_neg, hn, hcur]
  unfold find_analysis_by_lyric
  simp only [ht, hL, or_self, false_or, if_false, hn, if_neg]
  rw [dictGet_set_self]
  exact dictGet_set_self _ _ _

/-- Claim C2 witness: the amended statement for song "s", lyric "Hello",
sentence "tag". -/
theorem c2_witness :
    find_analysis_by_lyric
      (add_analysis_line (start_new_song ⟨[], none⟩ "s") "Hello" "tag") "s" "Hello"
      = some "tag" :=
  c2_round_trip _ "s" "Hello" "tag" (by decide) (by decide) (by decide) (by decide)

/-- Claim C3: with a non-empty song current, if a stored line variant and a
queried line variant are equal after normalization (and that normalization
is non-empty, so a record is actually stored), the lookup returns the
stored visual tag whichever variant was stored and whichever was queried. -/
theorem c3_normalization_invariance (st : SongAnalysisStorage) (t Lw Lq S : String)
    (hcur : st.current_song_title = some t) (ht : t ≠ "")
    (heq : normalize_lyric Lw = normalize_lyric Lq)
    (hn : normalize_lyric Lw ≠ "") (hS : S ≠ "") :
    find_analysis_by_lyric (add_analysis_line st Lw S) t Lq = some S := by
  have hLw : Lw ≠ "" := by
    intro h
    exact hn (by rw [h, normalize_lyric_empty])
  have hLq : Lq ≠ "" := by
    intro h
    rw [h, normalize_lyric_empty] at heq
    exact hn heq
  have hnq : normalize_lyric Lq ≠ "" := by
    rw [← heq]; exact hn
  unfold add_analysis_line
  simp only [hLw, hS, or_self, if_false, false_or, if_neg, hn, hcur]
  unfold find_analysis_by_lyric
  simp only [ht, hLq, or_self, false_or, if_false, hnq, if_neg]
  rw [dictGet_set_self, heq]
  exact dictGet_set_self _ _ _

/-- Claim C3 witness: storing "Hello,   World!" and querying "hello world"
(equal after normalization) returns the stored tag. -/
theorem c3_witness :
    find_analysis_by_lyric
      (add_analysis_line (start_new_song ⟨[], none⟩ "s") "Hello,   World!" "tag")
      "s" "hello world" = some "tag" :=
  c3_normalization_invariance _ "s" "Hello,   World!" "hello world" "tag"
    (by decide) (by decide) (by decide) (by decide) (by decide)

/-- Claim C10: for a non-empty title T, `start_new_song` only moves the
current-song pointer to T and installs a fresh table for T; the table of
every other song id B is unchanged. -/
theorem c10_frame (st : SongAnalysisStorage) (T B : String)
    (hT : T ≠ "") (hB : B ≠ T) :
    dictGet (start_new_song st T).song_data B = dictGet st.song_data B ∧
      (start_new_song st T).current_song_title = some T := by
  simp only [start_new_song, if_neg hT]
  exact ⟨dictGet_set_ne _ _ _ _ (Ne.symm hB), trivial⟩

/-- Claim C10 witness: starting song "b" leaves the populated table of "a"
readable unchanged. -/
theorem c10_witness :
    dictGet (start_new_song
        (add_analysis_line (start_new_song ⟨[], none⟩ "a") "x" "y") "b").song_data "a"
      = dictGet (add_analysis_line (start_new_song ⟨[], none⟩ "a") "x" "y").song_data "a" ∧
    (start_new_song
        (add_analysis_line (start_new_song ⟨[], none⟩ "a") "x" "y") "b").current_song_title
      = some "b" :=
  c10_frame _ "b" "a" (by decide) (by decide)

/-! Helper lemmas about the index sort used by `search`. -/

theorem mem_insOrd {sims : List ℚ} {i x : Nat} :
    ∀ l : List Nat, x ∈ insOrd sims i l → x = i ∨ x ∈ l := by
  intro l
  induction l with
  | nil => simp [insOrd]
  | cons j js ih =>
    simp only [insOrd]
    split_ifs with h
    · intro hx
      simp only [List.mem_cons] at hx ⊢
      tauto
    · intro hx
      simp only [List.mem_cons] at hx ⊢
      rcases hx with h1 | h2
      · right; left; exact h1
      · rcases ih h2 with h3 | h3
        · left; exact h3
        · right; right; exact h3

theorem pairwise_insOrd {sims : List ℚ} {i : Nat} :
    ∀ l : List Nat, l.Pairwise (fun a b => simAt sims a ≤ simAt sims b) →
      (insOrd sims i l).Pairwise (fun a b => simAt sims a ≤ simAt sims b) := by
  intro l
  induction l with
  | nil => simp [insOrd]
  | cons j js ih =>
    intro hp
    rcases List.pairwise_cons.1 hp with ⟨hj, hjs⟩
    simp only [insOrd]
    split_ifs with h
    · refine List.Pairwise.cons ?_ hp
      intro x hx
      rcases List.mem_cons.1 hx with rfl | hx'
      · exact le_of_lt h
      · exact le_trans (le_of_lt h) (hj x hx')
    · refine List.Pairwise.cons ?_ (ih hjs)
      intro x hx
      rcases mem_insOrd _ hx with rfl | hx'
      · exact not_lt.1 h
      · exact hj x hx'

theorem pairwise_argsort (sims : List ℚ) :
    (argsortAsc sims).Pairwise (fun a b => simAt sims a ≤ simAt sims b) := by
  have key : ∀ (l acc : List Nat),
      acc.Pairwise (fun a b => simAt sims a ≤ simAt sims b) →
      (l.foldl (fun a i => insOrd sims i a) acc).Pairwise
        (fun a b => simAt sims a ≤ simAt sims b) := by
    intro l
    induction l with
    | nil => intro acc h; simpa using h
    | cons x xs ih => intro acc h; exact ih _ (pairwise_insOrd _ h)
  exact key _ [] (by simp)

theorem lastSlice_sublist {α : Type} (l : List α) (k : Nat) :
    List.Sublist (lastSlice l k) l := by
  unfold lastSlice
  split
  · exact List.Sublist.refl _
  · exact List.drop_sublist _ _

theorem pairwise_filterMap_rel {α β : Type} (f : α → Option β)
    {R : α → α → Prop} {S : β → β → Prop}
    (hf : ∀ a a' b b', R a a' → f a = some b → f a' = some b' → S b b') :
    ∀ l : List α, l.Pairwise R → (l.filterMap f).Pairwise S := by
  intro l
  induction l with
  | nil => simp
  | cons a as ih =>
    intro hp
    rcases List.pairwise_cons.1 hp with ⟨ha, has⟩
    cases hfa : f a with
    | none =>
      rw [List.filterMap_cons_none hfa]
      exact ih has
    | some b =>
      rw [List.filterMap_cons_some hfa]
      refine List.Pairwise.cons ?_ (ih has)
      intro b' hb'
      rcases List.mem_filterMap.1 hb' with ⟨a', ha', hfa'⟩
      exact hf a a' b b' (ha a' ha') hfa hfa'

/-- Claim C4, counterexample: with `top_k = 0` the Python slice
`argsort(...)[-0:]` is the whole array, so `search` returns every stored
entry instead of at most zero. -/
theorem c4_counterexample :
    ¬ ((search ["a"] [[(1 : ℚ)]] [(1 : ℚ)] 0).length ≤ 0) := by
  have hs : similarities [[(1 : ℚ)]] [(1 : ℚ)] = [1] := by
    norm_num [similarities, dot]
  unfold search
  rw [hs]
  decide

/-- Claim C4 (amended): for every `top_k ≥ 1` (for `top_k = 0` the negative
slice `[-0:]` returns all entries), `search` returns at most `top_k` pairs,
ordered by descending score. -/
theorem c4_topk_sorted (image_paths : List String) (emb : List (List ℚ))
    (q : List ℚ) (k : Nat) (hk : 1 ≤ k) :
    (search image_paths emb q k).length ≤ k ∧
      (search image_paths emb q k).Pairwise (fun a b => b.2 ≤ a.2) := by
  constructor
  · unfold search
    refine le_trans (List.length_filterMap_le _ _) ?_
    rw [List.length_reverse]
    unfold lastSlice
    rw [if_neg (by omega)]
    rw [List.length_drop]
    omega
  · unfold search
    apply pairwise_filterMap_rel
      (R := fun i j =>
        simAt (similarities emb q) j ≤ simAt (similarities emb q) i)
    · intro i j a b hij hfi hfj
      by_cases h1 : i < image_paths.length
      · by_cases h2 : j < image_paths.length
        · rw [if_pos h1] at hfi
          rw [if_pos h2] at hfj
          have ha := Option.some.inj hfi
          have hb := Option.some.inj hfj
          rw [← ha, ← hb]
          exact hij
        · rw [if_neg h2] at hfj
          cases hfj
      · rw [if_neg h1] at hfi
        cases hfi
    · rw [List.pairwise_reverse]
      exact List.Pairwise.sublist (lastSlice_sublist _ _) (pairwise_argsort _)

/-- Claim C4 witness: the amended statement at a one-entry index and
`top_k = 1`. -/
theorem c4_witness :
    (search ["a"] [[(1 : ℚ)]] [(1 : ℚ)] 1).length ≤ 1 ∧
      (search ["a"] [[(1 : ℚ)]] [(1 : ℚ)] 1).Pairwise (fun a b => b.2 ≤ a.2) :=
  c4_topk_sorted ["a"] [[(1 : ℚ)]] [(1 : ℚ)] 1 (by decide)

/-- Claim C5, counterexample: two stored vectors with equal scores; `search`
returns the entry loaded second ("b", index 1) before the one loaded first
("a", index 0), because the ascending argsort keeps ties in index order and
the final reversal turns that into descending index order. -/
theorem c5_counterexample :
    search ["a", "b"] [[(1 : ℚ)], [(1 : ℚ)]] [(1 : ℚ)] 2
        = [("b", (1 : ℚ)), ("a", (1 : ℚ))] ∧
      search ["a", "b"] [[(1 : ℚ)], [(1 : ℚ)]] [(1 : ℚ)] 2
        ≠ [("a", (1 : ℚ)), ("b", (1 : ℚ))] := by
  have hs : similarities [[(1 : ℚ)], [(1 : ℚ)]] [(1 : ℚ)] = [1, 1] := by
    norm_num [similarities, dot]
  unfold search
  rw [hs]
  constructor
  · decide
  · decide

/-- Claim C5 (amended): the tie-break is not first-seen-wins, and no stable
tie order is guaranteed in general (the default numpy argsort is not
stable).  What does hold, and is all the counterexample forces, is the
small-array regime where numpy argsort is an insertion sort and keeps ties
in ascending index order: there the final reversal puts the later-loaded
entry first.  Stated for a two-entry index with equal scores and
`top_k = 2`: `search` returns the entry with the larger index first. -/
theorem c5_tie_order (p0 p1 : String) (v0 v1 q : List ℚ)
    (h : dot q v0 = dot q v1) :
    search [p0, p1] [v0, v1] q 2 = [(p1, dot q v1), (p0, dot q v0)] := by
  have hs : similarities [v0, v1] q = [dot q v0, dot q v1] := by
    simp [similarities]
  have h1 : simAt (similarities [v0, v1] q) 1 = dot q v1 := by
    rw [hs]; rfl
  have h0 : simAt (similarities [v0, v1] q) 0 = dot q v0 := by
    rw [hs]; rfl
  have hlen : (similarities [v0, v1] q).length = 2 := by rw [hs]; rfl
  have hargs : argsortAsc (similarities [v0, v1] q) = [0, 1] := by
    unfold argsortAsc
    rw [hlen]
    show insOrd (similarities [v0, v1] q) 1
      (insOrd (similarities [v0, v1] q) 0 []) = [0, 1]
    simp only [insOrd]
    rw [if_neg]
    rw [h1, h0, h]
    exact lt_irrefl _
  unfold search
  rw [hargs]
  have hsl : lastSlice [0, 1] 2 = [0, 1] := rfl
  rw [hsl]
  simp [h0, h1]

/-- Claim C5 witness: the amended statement at two identical unit vectors. -/
theorem c5_witness :
    search ["a", "b"] [[(1 : ℚ)], [(1 : ℚ)]] [(1 : ℚ)] 2
      = [("b", dot [(1 : ℚ)] [(1 : ℚ)]), ("a", dot [(1 : ℚ)] [(1 : ℚ)])] :=
  c5_tie_order "a" "b" [(1 : ℚ)] [(1 : ℚ)] [(1 : ℚ)] rfl

/-- Claim C9, counterexample: two embeddings and one path; `load_data`
completes (returning both artifacts), leaves them at mismatched lengths 2
and 1, and only flags the logged warning — it neither fails fast nor
truncates. -/
theorem c9_counterexample :
    (load_data [[(1 : ℚ)], [(2 : ℚ)]] ["a"]).1.image_embeddings.length = 2 ∧
      (load_data [[(1 : ℚ)], [(2 : ℚ)]] ["a"]).1.image_paths.length = 1 ∧
      (load_data [[(1 : ℚ)], [(2 : ℚ)]] ["a"]).2 = true := by decide

/-- Claim C9 (amended): when the persisted vector array and identifier list
have different lengths, the load step logs the corruption warning but
completes with both artifacts kept at their original, mismatched lengths;
it neither fails fast nor truncates. -/
theorem c9_mismatch_logged (emb : List (List ℚ)) (paths : List String)
    (h : paths.length ≠ emb.length) :
    (load_data emb paths).2 = true ∧
      (load_data emb paths).1.image_embeddings = emb ∧
      (load_data emb paths).1.image_paths = paths := by
  refine ⟨?_, rfl, rfl⟩
  simp [load_data, h]

/-- Claim C9 witness: the amended statement at the concrete mismatched
artifacts. -/
theorem c9_witness :
    (load_data [[(1 : ℚ)], [(2 : ℚ)]] ["a"]).2 = true ∧
      (load_data [[(1 : ℚ)], [(2 : ℚ)]] ["a"]).1.image_embeddings = [[(1 : ℚ)], [(2 : ℚ)]] ∧
      (load_data [[(1 : ℚ)], [(2 : ℚ)]] ["a"]).1.image_paths = ["a"] :=
  c9_mismatch_logged [[(1 : ℚ)], [(2 : ℚ)]] ["a"] (by decide)

/-! Helper lemmas about the streaming parser: the sentinel-splitting loop is
insensitive to how the text is cut into fragments. -/

theorem leadsWith_length : ∀ (p l : List Char), leadsWith p l = true → p.length ≤ l.length := by
  intro p
  induction p with
  | nil => intro l _; simp
  | cons c cs ih =>
    intro l h
    cases l with
    | nil => simp [leadsWith] at h
    | cons d ds =>
      simp only [leadsWith, Bool.and_eq_true] at h
      have := ih ds h.2
      simp only [List.length_cons]
      omega

theorem leadsWith_decomp : ∀ (p l : List Char), leadsWith p l = true → l = p ++ l.drop p.length := by
  intro p
  induction p with
  | nil => intro l _; simp
  | cons c cs ih =>
    intro l h
    cases l with
    | nil => simp [leadsWith] at h
    | cons d ds =>
      simp only [leadsWith, Bool.and_eq_true, beq_iff_eq] at h
      obtain ⟨rfl, h2⟩ := h
      simp only [List.length_cons, List.cons_append, List.drop_succ_cons]
      rw [← ih ds h2]

theorem leadsWith_append_true : ∀ (p l b : List Char),
    leadsWith p l = true → leadsWith p (l ++ b) = true := by
  intro p
  induction p with
  | nil => intro l b _; simp [leadsWith]
  | cons c cs ih =>
    intro l b h
    cases l with
    | nil => simp [leadsWith] at h
    | cons d ds =>
      simp only [List.cons_append, leadsWith, Bool.and_eq_true] at h ⊢
      exact ⟨h.1, ih ds b h.2⟩

theorem leadsWith_append_of_le : ∀ (p l b : List Char),
    p.length ≤ l.length → leadsWith p (l ++ b) = leadsWith p l := by
  intro p
  induction p with
  | nil => intro l b _; simp [leadsWith]
  | cons c cs ih =>
    intro l b hlen
    cases l with
    | nil => simp at hlen
    | cons d ds =>
      simp only [List.cons_append, leadsWith]
      congr 1
      exact ih ds b (by simpa using hlen)

theorem splitAtSentinel_decomp : ∀ (l pre post : List Char),
    splitAtSentinel l = some (pre, post) → l = pre ++ sentinel ++ post := by
  intro l
  induction l with
  | nil => intro pre post h; simp [splitAtSentinel] at h
  | cons c cs ih =>
    intro pre post h
    simp only [splitAtSentinel] at h
    by_cases hl : leadsWith sentinel (c :: cs)
    · rw [if_pos hl] at h
      simp only [Option.some.injEq, Prod.mk.injEq] at h
      obtain ⟨rfl, rfl⟩ := h
      simpa using leadsWith_decomp sentinel (c :: cs) hl
    · rw [if_neg hl] at h
      cases hcs : splitAtSentinel cs with
      | none => rw [hcs] at h; cases h
      | some pp =>
        obtain ⟨pre', post'⟩ := pp
        rw [hcs] at h
        simp only [Option.some.injEq, Prod.mk.injEq] at h
        obtain ⟨rfl, rfl⟩ := h
        have := ih pre' post' hcs
        simp [this]

theorem splitAtSentinel_length_ge (l pre post : List Char)
    (h : splitAtSentinel l = some (pre, post)) :
    l.length = pre.length + sentinel.length + post.length := by
  have h2 := congrArg List.length (splitAtSentinel_decomp l pre post h)
  simp at h2
  omega

theorem splitAtSentinel_append : ∀ (a b pre post : List Char),
    splitAtSentinel a = some (pre, post) →
    splitAtSentinel (a ++ b) = some (pre, post ++ b) := by
  intro a
  induction a with
  | nil => intro b pre post h; simp [splitAtSentinel] at h
  | cons c cs ih =>
    intro b pre post h
    simp only [splitAtSentinel] at h
    by_cases hl : leadsWith sentinel (c :: cs)
    · rw [if_pos hl] at h
      simp only [Option.some.injEq, Prod.mk.injEq] at h
      obtain ⟨rfl, rfl⟩ := h
      show splitAtSentinel ((c :: cs) ++ b) = _
      have hl2 : leadsWith sentinel ((c :: cs) ++ b) = true :=
        leadsWith_append_true sentinel (c :: cs) b hl
      rw [show (c :: cs) ++ b = c :: (cs ++ b) from rfl] at hl2 ⊢
      simp only [splitAtSentinel, hl2, if_true]
      rw [show c :: (cs ++ b) = (c :: cs) ++ b from rfl]
      rw [List.drop_append_of_le_length (leadsWith_length sentinel (c :: cs) hl)]
    · rw [if_neg hl] at h
      cases hcs : splitAtSentinel cs with
      | none => rw [hcs] at h; cases h
      | some pp =>
        obtain ⟨pre', post'⟩ := pp
        rw [hcs] at h
        simp only [Option.some.injEq, Prod.mk.injEq] at h
        obtain ⟨rfl, rfl⟩ := h
        have hcslen : sentinel.length ≤ cs.length := by
          have := splitAtSentinel_length_ge cs pre' post' hcs
          omega
        have hl2 : leadsWith sentinel (c :: (cs ++ b)) = false := by
          rw [show c :: (cs ++ b) = (c :: cs) ++ b from rfl]
          rw [leadsWith_append_of_le sentinel (c :: cs) b (by simp; omega)]
          exact Bool.not_eq_true _ ▸ (by simpa using hl)
        show splitAtSentinel (c :: (cs ++ b)) = _
        simp only [splitAtSentinel, hl2]
        rw [ih b pre' post' hcs]
        simp

theorem extractAllF_nil : ∀ fuel : Nat, extractAllF fuel [] = ([], []) := by
  intro fuel
  cases fuel with
  | zero => rfl
  | succ n => simp [extractAllF, splitAtSentinel]

theorem extractAllF_congr : ∀ (f1 : Nat) (l : List Char) (f2 : Nat),
    l.length ≤ f1 → l.length ≤ f2 → extractAllF f1 l = extractAllF f2 l := by
  intro f1
  induction f1 with
  | zero =>
    intro l f2 h1 _
    have hl : l = [] := by
      cases l with
      | nil => rfl
      | cons c cs => simp at h1
    subst hl
    rw [extractAllF_nil, extractAllF_nil]
  | succ n ih =>
    intro l f2 h1 h2
    cases l with
    | nil => rw [extractAllF_nil, extractAllF_nil]
    | cons c cs =>
      cases f2 with
      | zero => simp at h2
      | succ m =>
        simp only [extractAllF]
        cases hs : splitAtSentinel (c :: cs) with
        | none => rfl
        | some pp =>
          obtain ⟨pre, post⟩ := pp
          have hlen := splitAtSentinel_length_ge (c :: cs) pre post hs
          simp only [List.length_cons] at hlen h1 h2
          have hp1 : post.length ≤ n := by simp [sentinel] at hlen; omega
          have hp2 : post.length ≤ m := by simp [sentinel] at hlen; omega
          show (pre :: (extractAllF n post).1, (extractAllF n post).2) =
            (pre :: (extractAllF m post).1, (extractAllF m post).2)
          rw [ih post m hp1 hp2]

theorem extractAll_none (l : List Char) (h : splitAtSentinel l = none) :
    extractAll l = ([], l) := by
  cases l with
  | nil => rfl
  | cons c cs =>
    show extractAllF (cs.length + 1) (c :: cs) = ([], c :: cs)
    simp only [extractAllF]
    rw [h]

theorem extractAll_some (l pre post : List Char)
    (h : splitAtSentinel l = some (pre, post)) :
    extractAll l = (pre :: (extractAll post).1, (extractAll post).2) := by
  cases l with
  | nil => simp [splitAtSentinel] at h
  | cons c cs =>
    have hlen := splitAtSentinel_length_ge (c :: cs) pre post h
    simp only [List.length_cons] at hlen
    have hp : post.length ≤ cs.length := by simp [sentinel] at hlen; omega
    show extractAllF (cs.length + 1) (c :: cs) = _
    simp only [extractAllF]
    rw [h]
    show (pre :: (extractAllF cs.length post).1, (extractAllF cs.length post).2) =
      (pre :: (extractAll post).1, (extractAll post).2)
    unfold extractAll
    rw [extractAllF_congr cs.length post post.length hp (le_refl _)]

theorem extractAll_leftover_aux : ∀ (n : Nat) (l : List Char), l.length ≤ n →
    splitAtSentinel (extractAll l).2 = none := by
  intro n
  induction n with
  | zero =>
    intro l h
    have hl : l = [] := by
      cases l with
      | nil => rfl
      | cons c cs => simp at h
    subst hl
    rfl
  | succ n ih =>
    intro l h
    cases hs : splitAtSentinel l with
    | none => rw [extractAll_none l hs]; exact hs
    | some pp =>
      obtain ⟨pre, post⟩ := pp
      rw [extractAll_some l pre post hs]
      apply ih
      have := splitAtSentinel_length_ge l pre post hs
      simp [sentinel] at this
      omega

theorem extractAll_leftover (l : List Char) : splitAtSentinel (extractAll l).2 = none :=
  extractAll_leftover_aux l.length l (le_refl _)

theorem extractAll_append_aux : ∀ (n : Nat) (a b : List Char), a.length ≤ n →
    extractAll (a ++ b) =
      ((extractAll a).1 ++ (extractAll ((extractAll a).2 ++ b)).1,
       (extractAll ((extractAll a).2 ++ b)).2) := by
  intro n
  induction n with
  | zero =>
    intro a b h
    have ha : a = [] := by
      cases a with
      | nil => rfl
      | cons c cs => simp at h
    subst ha
    rfl
  | succ n ih =>
    intro a b h
    cases hs : splitAtSentinel a with
    | none =>
      rw [extractAll_none a hs]
      rfl
    | some pp =>
      obtain ⟨pre, post⟩ := pp
      have hsab := splitAtSentinel_append a b pre post hs
      rw [extractAll_some _ _ _ hsab, extractAll_some _ _ _ hs]
      have hlen : post.length ≤ n := by
        have := splitAtSentinel_length_ge a pre post hs
        simp [sentinel] at this
        omega
      rw [ih post b hlen]
      simp

theorem foldl_streamState : ∀ (chunks : List (List Char)) (recs : List Record) (buf : List Char),
    splitAtSentinel buf = none →
    chunks.foldl streamState (recs, buf) =
      (recs ++ (extractAll (buf ++ concatChunks chunks)).1.filterMap emitSection,
       (extractAll (buf ++ concatChunks chunks)).2) := by
  intro chunks
  induction chunks with
  | nil =>
    intro recs buf hb
    simp only [List.foldl_nil, concatChunks, List.append_nil]
    rw [extractAll_none _ hb]
    simp
  | cons c cs ih =>
    intro recs buf hb
    simp only [List.foldl_cons, streamState, concatChunks]
    rw [ih _ _ (extractAll_leftover (buf ++ c))]
    rw [← List.append_assoc buf c (concatChunks cs)]
    rw [extractAll_append_aux (buf ++ c).length (buf ++ c) (concatChunks cs) (le_refl _)]
    simp [List.filterMap_append, List.append_assoc]

theorem process_stream_flatten (chunks : List (List Char)) :
    process_stream chunks =
      (extractAll (concatChunks chunks)).1.filterMap emitSection ++
        (finalEmit (extractAll (concatChunks chunks)).2).toList := by
  unfold process_stream
  rw [foldl_streamState chunks [] [] rfl]
  simp

/-- Claim C6: the records emitted by `_process_stream` depend only on the
concatenation of the incoming fragments, never on where the stream was cut;
in particular the two-record input of the spec, split at an arbitrary
boundary `n`, always yields exactly the records (a, b) then (c, d). -/
theorem c6_chunking_invariance :
    (∀ cs1 cs2 : List (List Char), concatChunks cs1 = concatChunks cs2 →
        process_stream cs1 = process_stream cs2) ∧
      (∀ n : Nat, process_stream [streamInput.take n, streamInput.drop n] =
        [⟨['a'], ['b']⟩, ⟨['c'], ['d']⟩]) := by
  have hinv : ∀ cs1 cs2 : List (List Char), concatChunks cs1 = concatChunks cs2 →
      process_stream cs1 = process_stream cs2 := by
    intro cs1 cs2 h
    rw [process_stream_flatten, process_stream_flatten, h]
  refine ⟨hinv, ?_⟩
  intro n
  have hconcat : concatChunks [streamInput.take n, streamInput.drop n] =
      concatChunks [streamInput] := by
    simp [concatChunks, List.take_append_drop]
  rw [hinv _ _ hconcat]
  decide

/-- Claim C6 witness: the spec instance where the stream arrives as the two
complete per-record fragments. -/
theorem c6_witness :
    process_stream [("LYRIC: a\nSENTENCE: b\n<<END>>").toList,
        ("LYRIC: c\nSENTENCE: d\n<<END>>").toList] =
      process_stream [streamInput] :=
  c6_chunking_invariance.1 _ _ (by decide)

theorem sentinel_no_overlap : ∀ (s : List Char), s ≠ [] → s.length < sentinel.length →
    leadsWith sentinel (s ++ sentinel) = false := by
  intro s hne hlen
  have h6 : leadsWith ['<', 'E', 'N', 'D', '>', '>'] sentinel = false := by decide
  have h5 : leadsWith ['E', 'N', 'D', '>', '>'] sentinel = false := by decide
  have h4 : leadsWith ['N', 'D', '>', '>'] sentinel = false := by decide
  have h3 : leadsWith ['D', '>', '>'] sentinel = false := by decide
  have h2 : leadsWith ['>', '>'] sentinel = false := by decide
  have h1 : leadsWith ['>'] sentinel = false := by decide
  rcases s with _ | ⟨a, _ | ⟨b, _ | ⟨c, _ | ⟨d, _ | ⟨e, _ | ⟨f, _ | ⟨g, rest⟩⟩⟩⟩⟩⟩⟩
  · exact absurd rfl hne
  · show (('<' == a) && leadsWith ['<', 'E', 'N', 'D', '>', '>'] sentinel) = false
    rw [h6, Bool.and_false]
  · show (('<' == a) && (('<' == b) &&
      leadsWith ['E', 'N', 'D', '>', '>'] sentinel)) = false
    rw [h5, Bool.and_false, Bool.and_false]
  · show (('<' == a) && (('<' == b) && (('E' == c) &&
      leadsWith ['N', 'D', '>', '>'] sentinel))) = false
    rw [h4, Bool.and_false, Bool.and_false, Bool.and_false]
  · show (('<' == a) && (('<' == b) && (('E' == c) && (('N' == d) &&
      leadsWith ['D', '>', '>'] sentinel)))) = false
    rw [h3, Bool.and_false, Bool.and_false, Bool.and_false, Bool.and_false]
  · show (('<' == a) && (('<' == b) && (('E' == c) && (('N' == d) && (('D' == e) &&
      leadsWith ['>', '>'] sentinel))))) = false
    rw [h2, Bool.and_false, Bool.and_false, Bool.and_false, Bool.and_false,
      Bool.and_false]
  · show (('<' == a) && (('<' == b) && (('E' == c) && (('N' == d) && (('D' == e) &&
      (('>' == f) && leadsWith ['>'] sentinel)))))) = false
    rw [h1, Bool.and_false, Bool.and_false, Bool.and_false, Bool.and_false,
      Bool.and_false, Bool.and_false]
  · simp [sentinel] at hlen
    omega

theorem splitAtSentinel_append_sentinel : ∀ sec : List Char, splitAtSentinel sec = none →
    splitAtSentinel (sec ++ sentinel) = some (sec, []) := by
  intro sec
  induction sec with
  | nil => intro _; decide
  | cons c cs ih =>
    intro h
    simp only [splitAtSentinel] at h
    by_cases hl : leadsWith sentinel (c :: cs)
    · rw [if_pos hl] at h; cases h
    · rw [if_neg hl] at h
      cases hcs : splitAtSentinel cs with
      | some pp => obtain ⟨pre, post⟩ := pp; rw [hcs] at h; cases h
      | none =>
        have hih := ih hcs
        show splitAtSentinel (c :: (cs ++ sentinel)) = some (c :: cs, [])
        have hfalse : leadsWith sentinel (c :: (cs ++ sentinel)) = false := by
          by_cases hlen : sentinel.length ≤ (c :: cs).length
          · rw [show c :: (cs ++ sentinel) = (c :: cs) ++ sentinel from rfl]
            rw [leadsWith_append_of_le sentinel (c :: cs) sentinel hlen]
            simpa using hl
          · exact sentinel_no_overlap (c :: cs) (by simp) (by omega)
        simp only [splitAtSentinel, hfalse, Bool.false_eq_true, if_false]
        rw [hih]

theorem extractAll_append_sentinel (sec : List Char) (h : splitAtSentinel sec = none) :
    extractAll (sec ++ sentinel) = ([sec], []) := by
  rw [extractAll_some _ _ _ (splitAtSentinel_append_sentinel sec h)]
  rfl

/-- Claim C7: a candidate section that does not parse into both a non-empty
lyric and a non-empty sentence is dropped and the remaining stream is
processed exactly as if the bad candidate had never arrived; in particular
the spec input whose first candidate lacks a SENTENCE line yields exactly
the one record (y, z). -/
theorem c7_malformed_dropped :
    (∀ (sec : List Char) (cs : List (List Char)),
        splitAtSentinel sec = none → emitSection sec = none →
        process_stream ((sec ++ sentinel) :: cs) = process_stream cs) ∧
      process_stream [streamInputMissing] = [⟨['y'], ['z']⟩] := by
  constructor
  · intro sec cs hsp hemit
    unfold process_stream
    rw [List.foldl_cons]
    have h1 : streamState ([], []) (sec ++ sentinel) = ([], []) := by
      show (List.filterMap emitSection (extractAll (sec ++ sentinel)).1,
        (extractAll (sec ++ sentinel)).2) = ([], [])
      rw [extractAll_append_sentinel sec hsp]
      simp [hemit]
    rw [h1]
  · decide

/-- Claim C7 witness: dropping the sentinel-terminated candidate "LYRIC: x"
(no SENTENCE line) leaves the processing of the following fragment
untouched. -/
theorem c7_witness :
    process_stream [("LYRIC: x").toList ++ sentinel,
        ("LYRIC: y\nSENTENCE: z\n<<END>>").toList] =
      process_stream [("LYRIC: y\nSENTENCE: z\n<<END>>").toList] :=
  c7_malformed_dropped.1 _ _ (by decide) (by decide)

/-! Helper lemma for the retry loop: invariants of
`perform_analysis_attempts` along the `for attempt in range(MAX_RETRIES+1)`
loop. -/

theorem retry_attempts_spec (outcome : Nat → AttemptOutcome) (jitter : Nat → ℚ) :
    ∀ (fuel attempt : Nat) (delay : ℚ), 1 ≤ fuel →
    attempt + fuel = MAX_RETRIES + 1 →
    delay ≤ MAX_RETRY_DELAY_SECONDS →
    1 ≤ (perform_analysis_attempts outcome jitter fuel attempt delay).1 ∧
    (perform_analysis_attempts outcome jitter fuel attempt delay).1 ≤ fuel ∧
    (perform_analysis_attempts outcome jitter fuel attempt delay).1 =
      (perform_analysis_attempts outcome jitter fuel attempt delay).2.length + 1 ∧
    (∀ d ∈ (perform_analysis_attempts outcome jitter fuel attempt delay).2,
      d ≤ MAX_RETRY_DELAY_SECONDS) ∧
    (∀ j : Nat, j + 1 < (perform_analysis_attempts outcome jitter fuel attempt delay).1 →
      isTransient (outcome (attempt + j)) = true) := by
  intro fuel
  induction fuel with
  | zero => intro attempt delay h1 _ _; omega
  | succ n ih =>
    intro attempt delay hf hinv hd
    simp only [perform_analysis_attempts]
    by_cases hc : isTransient (outcome attempt) = true ∧ attempt < MAX_RETRIES
    · rw [if_pos hc]
      have hn1 : 1 ≤ n := by
        have := hc.2
        simp only [MAX_RETRIES] at this hinv
        omega
      have hinv' : (attempt + 1) + n = MAX_RETRIES + 1 := by omega
      obtain ⟨ih1, ih2, ih3, ih4, ih5⟩ :=
        ih (attempt + 1) (min (delay * 2 + jitter attempt) MAX_RETRY_DELAY_SECONDS)
          hn1 hinv' (min_le_right _ _)
      refine ⟨by omega, by omega, by simp [ih3], ?_, ?_⟩
      · intro d hdmem
        rcases List.mem_cons.1 hdmem with rfl | hmem
        · exact hd
        · exact ih4 d hmem
      · intro j hj
        cases j with
        | zero => simpa using hc.1
        | succ j' =>
          have : j' + 1 < (perform_analysis_attempts outcome jitter n (attempt + 1)
              (min (delay * 2 + jitter attempt) MAX_RETRY_DELAY_SECONDS)).1 := by
            simp at hj
            omega
          have := ih5 j' this
          rw [show attempt + (j' + 1) = (attempt + 1) + j' from by omega]
          exact this
    · rw [if_neg hc]
      exact ⟨le_refl 1, by omega, rfl, by simp, by intro j hj; omega⟩

/-- Claim C8: for every sequence of attempt outcomes and every jitter draw,
the retry loop performs at most MAX_RETRIES + 1 attempts, performs exactly
one sleep per retry (attempts = sleeps + 1), re-attempts only when the
previous attempt failed with a transient error (service unavailable,
resource exhausted, deadline exceeded — success, other GoogleAPIError and
unexpected exceptions all end the task with no retry), and every sleep
delay is at most MAX_RETRY_DELAY_SECONDS. -/
theorem c8_retry_policy (outcome : Nat → AttemptOutcome) (jitter : Nat → ℚ) :
    (perform_analysis_thread outcome jitter).1 ≤ MAX_RETRIES + 1 ∧
    (perform_analysis_thread outcome jitter).1 =
      (perform_analysis_thread outcome jitter).2.length + 1 ∧
    (∀ j : Nat, j + 1 < (perform_analysis_thread outcome jitter).1 →
      isTransient (outcome j) = true) ∧
    (∀ d ∈ (perform_analysis_thread outcome jitter).2,
      d ≤ MAX_RETRY_DELAY_SECONDS) := by
  obtain ⟨h1, h2, h3, h4, h5⟩ :=
    retry_attempts_spec outcome jitter (MAX_RETRIES + 1) 0 INITIAL_RETRY_DELAY_SECONDS
      (by norm_num) (by norm_num)
      (by norm_num [INITIAL_RETRY_DELAY_SECONDS, MAX_RETRY_DELAY_SECONDS])
  exact ⟨h2, h3, fun j hj => by simpa using h5 j (by simpa using hj), h4⟩

/-- Claim C8 witness: with every attempt failing transiently and zero
jitter, the loop runs 4 attempts with sleeps [2, 4, 8]; attempt 2 exists
because attempt 1 was transient, and the recorded delay 2 is at most the
configured maximum. -/
theorem c8_witness :
    (1 + 1 < (perform_analysis_thread
        (fun _ => AttemptOutcome.serviceUnavailable) (fun _ => 0)).1 ∧
      isTransient ((fun _ => AttemptOutcome.serviceUnavailable) 1) = true) ∧
    ((2 : ℚ) ∈ (perform_analysis_thread
        (fun _ => AttemptOutcome.serviceUnavailable) (fun _ => 0)).2 ∧
      (2 : ℚ) ≤ MAX_RETRY_DELAY_SECONDS) := by
  have heval : perform_analysis_thread
      (fun _ => AttemptOutcome.serviceUnavailable) (fun _ => 0) = (4, [2, 4, 8]) := by
    norm_num [perform_analysis_thread, perform_analysis_attempts, MAX_RETRIES,
      INITIAL_RETRY_DELAY_SECONDS, MAX_RETRY_DELAY_SECONDS, isTransient]
  constructor
  · constructor
    · rw [heval]; norm_num
    · exact (c8_retry_policy (fun _ => AttemptOutcome.serviceUnavailable) (fun _ => 0)).2.2.1
        1 (by rw [heval]; norm_num)
  · constructor
    · rw [heval]; norm_num
    · exact (c8_retry_policy (fun _ => AttemptOutcome.serviceUnavailable) (fun _ => 0)).2.2.2
        2 (by rw [heval]; norm_num)

end SpotifyToImage
